import Mathlib

/-!
Formal model of the blank-line padding rule engine of this repository
(`src/rules/padding.ts` and its configuration in `src/index.ts`).

Statements, tokens and source text are shallowly embedded: a source file is
its ordered list of tokens and comments (each with a start and end line), a
statement node is a reference into that list (kind, start line, index of its
first token, index of its actual last token), and the ESLint reporting sink
is modelled by returning the list of emitted reports.  JavaScript exceptions
(reading a property of `null`) are modelled with `Option`: `none` is a thrown
`TypeError`.

The helper module `ast-utils` is imported by `src/rules/padding.ts` but its
source is not part of the repository snapshot; the corresponding definitions
below are modelled from the spec and are marked as such in their doc
comments.
-/

/-- A token or comment of the tokenized source, with its start and end line
(`loc.start.line` / `loc.end.line` in ESLint). -/
structure Token where
  ttype : String
  value : String
  startLine : Nat
  endLine : Nat
deriving Repr, DecidableEq

/-- The tokenized source file: all tokens and comments in document order.
Models the parts of the ESLint `SourceCode` token service used by the rule. -/
structure SourceCode where
  tokens : List Token
deriving Repr, DecidableEq

/-- A statement node of the external tree.  `plain kind startLine firstIdx
lastIdx` is a non-label statement whose first token is at index `firstIdx`
and whose actual last token is at index `lastIdx` of the token list;
`labeled` wraps a body statement the way an ESTree `LabeledStatement` does
(the constructor is the embedding of the `type === 'LabeledStatement'`
check). -/
inductive SNode where
  | plain (kind : String) (startLine firstIdx lastIdx : Nat)
  | labeled (startLine firstIdx : Nat) (body : SNode)
deriving Repr, DecidableEq

/-- The `type` field of a node. -/
def SNode.kind : SNode → String
  | .plain k _ _ _ => k
  | .labeled _ _ _ => "LabeledStatement"

/-- The node's `loc.start.line`. -/
def SNode.startLine : SNode → Nat
  | .plain _ s _ _ => s
  | .labeled s _ _ => s

/-- Index of the node's first token in the token list. -/
def SNode.firstIdx : SNode → Nat
  | .plain _ _ f _ => f
  | .labeled _ f _ => f

/-- Index of the node's actual last token in the token list (a labeled
statement ends where its body ends). -/
def SNode.lastIdx : SNode → Nat
  | .plain _ _ _ l => l
  | .labeled _ _ b => b.lastIdx

/-- The token service's `sourceCode.getFirstToken(node)`; `none` models the
`null` ESLint returns when the node has no token. -/
def getFirstToken (sc : SourceCode) (node : SNode) : Option Token :=
  sc.tokens.get? node.firstIdx

/-- Modelled from the spec: the token service reports "whether they lie on
the same source line" for two tokens (`ast-utils` `areTokensOnSameLine`,
whose source is not in the snapshot): the left operand ends on the line the
right operand starts on. -/
def areTokensOnSameLine (left right : Token) : Bool :=
  left.endLine == right.startLine

/-- Modelled from the spec: `ast-utils` `getActualLastToken` (source not in
the snapshot) returns the node's "last non-trivial token"; the model stores
the index of that token in the node itself. -/
def getActualLastToken (sc : SourceCode) (node : SNode) : Option Token :=
  sc.tokens.get? node.lastIdx

/-- The tokens and comments strictly between the actual last token of
`prevNode` and the first token of `nextNode`: the candidate list that
`sourceCode.getFirstTokenBetween(prevToken, nextNode, {includeComments})`
filters. -/
def betweenTokens (sc : SourceCode) (prevNode nextNode : SNode) : List Token :=
  (sc.tokens.drop (prevNode.lastIdx + 1)).take
    (nextNode.firstIdx - (prevNode.lastIdx + 1))

/-- The inclusive token chain from the actual last token of `prevNode` to
the first token of `nextNode`. -/
def betweenChain (sc : SourceCode) (prevNode nextNode : SNode) : List Token :=
  (sc.tokens.drop prevNode.lastIdx).take
    (nextNode.firstIdx + 1 - prevNode.lastIdx)

/-- Consecutive pairs of a token chain separated by at least one blank line
(a gap of at least two line numbers between one token's end and the next
token's start). -/
def paddingPairs : List Token → List (Token × Token)
  | a :: b :: rest =>
    (if a.endLine + 2 ≤ b.startLine then [(a, b)] else []) ++ paddingPairs (b :: rest)
  | _ => []

/-- Modelled from the spec: `ast-utils` `getPaddingLineSequences` (source
not in the snapshot) returns "the list of maximal blank-line run
descriptors found textually between" the two nodes; the model returns the
blank-line separated consecutive token pairs of the chain from `prevNode`'s
actual last token to `nextNode`'s first token. -/
def getPaddingLineSequences (prevNode nextNode : SNode) (sc : SourceCode) :
    List (Token × Token) :=
  paddingPairs (betweenChain sc prevNode nextNode)

/-- One step list of the stateful filter passed to `getFirstTokenBetween`
in the fix of `paddingAlwaysTester` (padding.ts lines 137-165): walk the
tokens between the nodes; a token on the same line as the current reference
token `prevToken` is rejected by the filter after becoming the new
reference (`prevToken = token; return false`), the first other token is
accepted and returned.  Result: (number of skipped tokens, final reference
token, accepted token or `none`). -/
def scanSkip (ref : Token) : List Token → Nat × Token × Option Token
  | [] => (0, ref, none)
  | tok :: rest =>
    if areTokensOnSameLine ref tok then
      let r := scanSkip tok rest
      (r.1 + 1, r.2)
    else
      (0, ref, some tok)

/-- A text edit produced by `fixer.insertTextAfter(prevToken, insertText)`:
insert `text` immediately after the token at index `afterIdx`. -/
structure RuleFix where
  afterIdx : Nat
  text : String
deriving Repr, DecidableEq

/-- The fix closure of `paddingAlwaysTester` (padding.ts lines 135-172):
starting from `prevNode`'s actual last token, skip the tokens and comments
on the same line as the running reference token; the first other token (or
`nextNode` itself when none exists, the `|| nextNode` fallback) is the
anchor; insert two newlines after the final reference token when the anchor
is on the same line as it, otherwise one.  `none` models the `TypeError`
thrown when `prevNode` has no last token. -/
def computeFix (sc : SourceCode) (prevNode nextNode : SNode) : Option RuleFix :=
  match getActualLastToken sc prevNode with
  | none => none
  | some lastTok =>
    let scanned := scanSkip lastTok (betweenTokens sc prevNode nextNode)
    let anchorStart : Nat :=
      match scanned.2.2 with
      | some tok => tok.startLine
      | none => nextNode.startLine
    let insertText := if scanned.2.1.endLine == anchorStart then "\n\n" else "\n"
    some ⟨prevNode.lastIdx + scanned.1, insertText⟩

/-- A record accepted by the report sink: `context.report({node, message,
fix})`. -/
structure Report where
  node : SNode
  message : String
  fix : Option RuleFix
deriving Repr, DecidableEq

/-- `paddingAlwaysTester` (padding.ts lines 114-174), with the report sink
made explicit: when at least one padding line sequence exists between the
nodes, nothing is reported; otherwise exactly one violation anchored at
`nextNode` is reported, carrying the fix. -/
def paddingAlwaysTester (prevNode nextNode : SNode) (sc : SourceCode) :
    List Report :=
  let paddingLines := getPaddingLineSequences prevNode nextNode sc
  if 0 < paddingLines.length then []
  else
    [⟨nextNode, "Expected blank line before this statement.",
      computeFix sc prevNode nextNode⟩]

/-- Number of newline characters of an inserted text. -/
def newlineCount (s : String) : Nat :=
  s.toList.count '\n'

/-- Shift a token down by `k` source lines. -/
def shiftToken (k : Nat) (t : Token) : Token :=
  { t with startLine := t.startLine + k, endLine := t.endLine + k }

/-- Shift every token after the first `cut` ones down by `k` lines. -/
def shiftTokensFrom (cut k : Nat) : List Token → List Token
  | [] => []
  | t :: rest =>
    match cut with
    | 0 => shiftToken k t :: shiftTokensFrom 0 k rest
    | c + 1 => t :: shiftTokensFrom c k rest

/-- Apply a fix to the source: inserting text immediately after the end of
the token at `afterIdx` moves every later token down by the number of
inserted newlines and leaves the token list itself unchanged. -/
def applyFix (sc : SourceCode) (fix : RuleFix) : SourceCode :=
  ⟨shiftTokensFrom (fix.afterIdx + 1) (newlineCount fix.text) sc.tokens⟩

/-- Document order of a token chain: each token ends no later than the next
one starts. -/
def lineOrdered : List Token → Bool
  | a :: b :: rest => (a.endLine ≤ b.startLine : Bool) && lineOrdered (b :: rest)
  | _ => true

/-- Well-formedness of an adjacent node pair against the token list:
`prevNode` ends strictly before `nextNode` starts, `nextNode`'s first token
exists and agrees with the node's start line, and the token chain between
the two nodes is in document order. -/
def pairWf (sc : SourceCode) (p n : SNode) : Bool :=
  decide (p.lastIdx < n.firstIdx) && decide (n.firstIdx < sc.tokens.length) &&
  (match sc.tokens.get? n.firstIdx with
   | some tok => n.startLine == tok.startLine
   | none => false) &&
  lineOrdered (betweenChain sc p n)

/-- The `StatementType` enum of padding.ts (lines 16-31): the statement
categories the rule responds to, with `Any` the universal wildcard. -/
inductive StatementType where
  | Any
  | AfterAllToken
  | AfterEachToken
  | BeforeAllToken
  | BeforeEachToken
  | DescribeToken
  | ExpectToken
  | FdescribeToken
  | FitToken
  | ItToken
  | TestToken
  | XdescribeToken
  | XitToken
  | XtestToken
deriving Repr, DecidableEq

/-- The `StatementTypes` alias of padding.ts (line 33): a single category or
an array of categories. -/
inductive StatementTypes where
  | single (t : StatementType)
  | listOf (ts : List StatementType)
deriving Repr, DecidableEq

/-- The `PaddingType` enum of padding.ts (lines 38-41). -/
inductive PaddingType where
  | Any
  | Always
deriving Repr, DecidableEq

/-- A padding configuration object (padding.ts lines 50-54). -/
structure Config where
  paddingType : PaddingType
  prevStatementType : StatementTypes
  nextStatementType : StatementTypes
deriving Repr, DecidableEq

/-- `createTokenTester` (padding.ts lines 78-88): fetch the node's first
token, then test `node.type === 'ExpressionStatement' && token.type ===
'Identifier' && token.value === tokenName`.  The conjunction short-circuits
left to right as in JavaScript, so the token is dereferenced only when the
node is an expression statement; `none` models the `TypeError` thrown by
`token.type` when the token is `null` there. -/
def createTokenTester (tokenName : String) (node : SNode) (sc : SourceCode) :
    Option Bool :=
  let token := getFirstToken sc node
  if node.kind == "ExpressionStatement" then
    match token with
    | none => none
    | some tok => some (tok.ttype == "Identifier" && tok.value == tokenName)
  else
    some false

/-- The `statementTesters` table (padding.ts lines 91-106). -/
def statementTesters (t : StatementType) : SNode → SourceCode → Option Bool :=
  match t with
  | .Any => fun _ _ => some true
  | .AfterAllToken => createTokenTester "afterAll"
  | .AfterEachToken => createTokenTester "afterEach"
  | .BeforeAllToken => createTokenTester "beforeAll"
  | .BeforeEachToken => createTokenTester "beforeEach"
  | .DescribeToken => createTokenTester "describe"
  | .ExpectToken => createTokenTester "expect"
  | .FdescribeToken => createTokenTester "fdescribe"
  | .FitToken => createTokenTester "fit"
  | .ItToken => createTokenTester "it"
  | .TestToken => createTokenTester "test"
  | .XdescribeToken => createTokenTester "xdescribe"
  | .XitToken => createTokenTester "xit"
  | .XtestToken => createTokenTester "xtest"

/-- The identifier name a named category tests for, following the
`statementTesters` table. -/
def typeTokenName : StatementType → String
  | .Any => ""
  | .AfterAllToken => "afterAll"
  | .AfterEachToken => "afterEach"
  | .BeforeAllToken => "beforeAll"
  | .BeforeEachToken => "beforeEach"
  | .DescribeToken => "describe"
  | .ExpectToken => "expect"
  | .FdescribeToken => "fdescribe"
  | .FitToken => "fit"
  | .ItToken => "it"
  | .TestToken => "test"
  | .XdescribeToken => "xdescribe"
  | .XitToken => "xit"
  | .XtestToken => "xtest"

/-- The label-unwrapping loop of `nodeMatchesType` (padding.ts lines
214-217): dig into a `LabeledStatement` body until it is not one anymore. -/
def unwrapLabels : SNode → SNode
  | .labeled _ _ body => unwrapLabels body
  | n => n

/-- The `statementType.some(...)` recursion of `nodeMatchesType` (padding.ts
lines 221-225) in the `Option` (exception) monad: members of an array
category are tested in order against the already unwrapped node; a thrown
classification error propagates, a `true` short-circuits. -/
def nodeMatchesTypeList (inner : SNode) (sc : SourceCode) :
    List StatementType → Option Bool
  | [] => some false
  | t :: rest =>
    match statementTesters t (unwrapLabels inner) sc with
    | none => none
    | some true => some true
    | some false => nodeMatchesTypeList inner sc rest

/-- `nodeMatchesType` (padding.ts lines 206-228): unwrap labels, then either
delegate an array category member-wise or run the single category tester. -/
def nodeMatchesType (node : SNode) (statementType : StatementTypes)
    (sc : SourceCode) : Option Bool :=
  let inner := unwrapLabels node
  match statementType with
  | .single t => statementTesters t inner sc
  | .listOf ts => nodeMatchesTypeList inner sc ts

/-- The rule-match test of one config in the `testPadding` loop (padding.ts
lines 251-254): `nodeMatchesType(prevNode, prevType) &&
nodeMatchesType(nextNode, nextType)`, short-circuiting left to right. -/
def configMatches (c : Config) (prevNode nextNode : SNode) (sc : SourceCode) :
    Option Bool :=
  match nodeMatchesType prevNode c.prevStatementType sc with
  | none => none
  | some false => some false
  | some true => nodeMatchesType nextNode c.nextStatementType sc

/-- The backward scan of the `testPadding` loop (padding.ts lines 244-257),
expressed over the reversed config list: return the padding type of the
first matching config, or `PaddingType.Any` when none matches (lines
259-261). -/
def resolvePolicyRev (prevNode nextNode : SNode) (sc : SourceCode) :
    List Config → Option PaddingType
  | [] => some PaddingType.Any
  | c :: rest =>
    match configMatches c prevNode nextNode sc with
    | none => none
    | some true => some c.paddingType
    | some false => resolvePolicyRev prevNode nextNode sc rest

/-- The padding policy `testPadding` resolves for a node pair: the loop
`for (let i = configs.length - 1; i >= 0; --i)` scans the table from its
last entry to its first, which is a forward scan of the reversed table. -/
def resolvePolicy (configs : List Config) (prevNode nextNode : SNode)
    (sc : SourceCode) : Option PaddingType :=
  resolvePolicyRev prevNode nextNode sc configs.reverse

/-- The `paddingTesters` table (padding.ts lines 177-180) with the report
sink explicit: the `Any` tester is `() => true` and reports nothing, the
`Always` tester is `paddingAlwaysTester`. -/
def paddingTesters (t : PaddingType) (prevNode nextNode : SNode)
    (sc : SourceCode) : List Report :=
  match t with
  | .Any => []
  | .Always => paddingAlwaysTester prevNode nextNode sc

/-- `testPadding` (padding.ts lines 234-262): run the tester of the resolved
policy on the pair, returning the reports it emits. -/
def testPadding (configs : List Config) (prevNode nextNode : SNode)
    (sc : SourceCode) : Option (List Report) :=
  match resolvePolicy configs prevNode nextNode sc with
  | none => none
  | some t => some (paddingTesters t prevNode nextNode sc)

/-- Modelled from the spec: `ast-utils` `isValidParent` (source not in the
snapshot) accepts exactly the recognized scope-introducing parent kinds
(program root, block, switch statement, switch case). -/
def isValidParent (parentType : String) : Bool :=
  parentType == "Program" || parentType == "BlockStatement" ||
  parentType == "SwitchStatement" || parentType == "SwitchCase"

/-- The state owned by one rule invocation: the scope stack of
`createScopeInfo` (padding.ts lines 182-201), innermost scope first with
its `prevNode` slot (`[]` is the initial `null` scope), plus the reports
collected by the sink. -/
structure RuleState where
  scopes : List (Option SNode)
  reports : List Report
deriving Repr, DecidableEq

/-- `scopeInfo.enter` (padding.ts lines 193-195): push a fresh scope whose
`prevNode` is `null`, keeping the previous stack as `upper`. -/
def scopeEnter (s : List (Option SNode)) : List (Option SNode) :=
  none :: s

/-- `scopeInfo.exit` (padding.ts lines 196-198): pop back to the upper
scope, discarding the current one. -/
def scopeExit (s : List (Option SNode)) : List (Option SNode) :=
  s.tail

/-- The `prevNode` getter of `scopeInfo` (padding.ts lines 187-189): read
the innermost scope's slot. -/
def scopeGetPrev (s : List (Option SNode)) : Option SNode :=
  match s with
  | [] => none
  | top :: _ => top

/-- The `prevNode` setter of `scopeInfo` (padding.ts lines 190-192):
overwrite the innermost scope's slot. -/
def scopeSetPrev (node : SNode) (s : List (Option SNode)) :
    List (Option SNode) :=
  match s with
  | [] => []
  | _ :: rest => some node :: rest

/-- `verifyNode` (padding.ts lines 267-284), with the visited node's parent
kind passed explicitly (ESLint's `node.parent.type`): return early when the
parent is not a valid container; otherwise test the pair against the
recorded previous statement (when one exists) and then record the node as
the scope's new previous statement. -/
def verifyNode (configs : List Config) (sc : SourceCode) (node : SNode)
    (parentKind : String) (st : RuleState) : Option RuleState :=
  if isValidParent parentKind = false then
    some st
  else
    match scopeGetPrev st.scopes with
    | some prev =>
      match testPadding configs prev node sc with
      | none => none
      | some reports =>
        some ⟨scopeSetPrev node st.scopes, st.reports ++ reports⟩
    | none => some ⟨scopeSetPrev node st.scopes, st.reports⟩

/-- A visitor callback invocation delivered by the host tree-walker, one
per selector registered by `createRule` (padding.ts lines 329-342).
Statement and switch-case visits carry the visited node and its parent's
kind. -/
inductive Event where
  | program
  | programExit
  | blockStatement
  | blockStatementExit
  | switchStatement
  | switchStatementExit
  | statement (node : SNode) (parentKind : String)
  | switchCase (node : SNode) (parentKind : String)
  | switchCaseExit
deriving Repr, DecidableEq

/-- The listener object returned by `createRule` (padding.ts lines
329-342), dispatching one host callback.  Note the source registers
`scopeInfo.enter` — not `exit` — for `'Program:exit'` (line 331). -/
def handleEvent (configs : List Config) (sc : SourceCode) (st : RuleState) :
    Event → Option RuleState
  | .program => some { st with scopes := scopeEnter st.scopes }
  | .programExit => some { st with scopes := scopeEnter st.scopes }
  | .blockStatement => some { st with scopes := scopeEnter st.scopes }
  | .blockStatementExit => some { st with scopes := scopeExit st.scopes }
  | .switchStatement => some { st with scopes := scopeEnter st.scopes }
  | .switchStatementExit => some { st with scopes := scopeExit st.scopes }
  | .statement node parentKind => verifyNode configs sc node parentKind st
  | .switchCase node parentKind =>
    match verifyNode configs sc node parentKind st with
    | none => none
    | some st' => some { st' with scopes := scopeEnter st'.scopes }
  | .switchCaseExit => some { st with scopes := scopeExit st.scopes }

/-- Run the rule listener over a complete traversal callback sequence. -/
def runEvents (configs : List Config) (sc : SourceCode) :
    List Event → RuleState → Option RuleState
  | [], st => some st
  | e :: rest, st =>
    match handleEvent configs sc st e with
    | none => none
    | some st' => runEvents configs sc rest st'

/-- The initial state of one rule invocation: `createScopeInfo` starts with
`scope = null` and no reports. -/
def initialRuleState : RuleState :=
  ⟨[], []⟩

/-- One operation on the scope tracker, as performed between entering and
exiting a nested scope during traversal. -/
inductive ScopeOp where
  | enter
  | exit
  | setPrev (node : SNode)
deriving Repr, DecidableEq

/-- Apply one scope tracker operation to the scope stack. -/
def applyScopeOp (s : List (Option SNode)) : ScopeOp → List (Option SNode)
  | .enter => scopeEnter s
  | .exit => scopeExit s
  | .setPrev node => scopeSetPrev node s

/-- Run a sequence of scope tracker operations. -/
def runScopeOps (ops : List ScopeOp) (s : List (Option SNode)) :
    List (Option SNode) :=
  ops.foldl applyScopeOp s

/-- A well-bracketed life of a nested scope at relative depth `d`: every
`exit` pops a scope previously pushed by an `enter` of the same sequence,
and the sequence ends at the depth it started. -/
def innerBalanced : List ScopeOp → Nat → Bool
  | [], d => d == 0
  | .enter :: ops, d => innerBalanced ops (d + 1)
  | .exit :: ops, d => (d != 0) && innerBalanced ops (d - 1)
  | .setPrev _ :: ops, d => innerBalanced ops d

/-- Placeholder token used only as the default of `List.getD` in statements
about token chains. -/
def dummyToken : Token :=
  ⟨"", "", 0, 0⟩

theorem scanSkip_count_le (ts : List Token) :
    ∀ ref : Token, (scanSkip ref ts).1 ≤ ts.length := by
  induction ts with
  | nil => intro ref; simp [scanSkip]
  | cons tok rest ih =>
    intro ref
    simp only [scanSkip]
    split
    · simpa using Nat.succ_le_succ (ih tok)
    · simp

theorem scanSkip_ref (ts : List Token) :
    ∀ ref : Token,
      (scanSkip ref ts).2.1 = (ref :: ts).getD (scanSkip ref ts).1 dummyToken := by
  induction ts with
  | nil => intro ref; simp [scanSkip]
  | cons tok rest ih =>
    intro ref
    simp only [scanSkip]
    split
    · simpa using ih tok
    · simp

theorem scanSkip_sameLine (ts : List Token) :
    ∀ ref : Token, ∀ i < (scanSkip ref ts).1,
      areTokensOnSameLine ((ref :: ts).getD i dummyToken)
        ((ref :: ts).getD (i + 1) dummyToken) = true := by
  induction ts with
  | nil => intro ref i hi; simp [scanSkip] at hi
  | cons tok rest ih =>
    intro ref i hi
    simp only [scanSkip] at hi
    split at hi
    · rename_i hsame
      simp only at hi
      match i with
      | 0 => simpa using hsame
      | j + 1 =>
        have hj : j < (scanSkip tok rest).1 := by omega
        simpa using ih tok j hj
    · simp at hi

theorem scanSkip_anchor_eq (ts : List Token) :
    ∀ ref : Token, (scanSkip ref ts).2.2 = ts.get? (scanSkip ref ts).1 := by
  induction ts with
  | nil => intro ref; simp [scanSkip]
  | cons tok rest ih =>
    intro ref
    simp only [scanSkip]
    split
    · simpa using ih tok
    · simp

theorem scanSkip_anchor_notSame (ts : List Token) :
    ∀ ref tok : Token, (scanSkip ref ts).2.2 = some tok →
      areTokensOnSameLine (scanSkip ref ts).2.1 tok = false := by
  induction ts with
  | nil => intro ref tok h; simp [scanSkip] at h
  | cons t rest ih =>
    intro ref tok h
    by_cases hsame : areTokensOnSameLine ref t = true
    · simp only [scanSkip, if_pos hsame] at h ⊢
      exact ih t tok (by simpa using h)
    · simp only [scanSkip, if_neg hsame] at h ⊢
      cases h
      simpa using hsame

theorem scanSkip_anchor_none (ts : List Token) (ref : Token)
    (h : (scanSkip ref ts).2.2 = none) : (scanSkip ref ts).1 = ts.length := by
  have he := scanSkip_anchor_eq ts ref
  rw [h] at he
  have hlen : ts.length ≤ (scanSkip ref ts).1 := by
    simpa using List.get?_eq_none.mp he.symm
  exact Nat.le_antisymm (scanSkip_count_le ts ref) hlen

theorem paddingPairs_ne_nil (l : List Token) :
    ∀ i : Nat, ∀ a b : Token, l.get? i = some a → l.get? (i + 1) = some b →
      a.endLine + 2 ≤ b.startLine → paddingPairs l ≠ [] := by
  induction l with
  | nil => intro i a b ha; simp at ha
  | cons x l' ih =>
    intro i a b ha hb hgap
    cases l' with
    | nil =>
      have : i + 1 < 1 := by
        by_contra hcon
        rw [List.get?_eq_none.mpr (by simp)] at hb
        exact Option.noConfusion hb
      omega
    | cons y rest =>
      match i with
      | 0 =>
        simp only [List.get?] at ha hb
        cases ha; cases hb
        simp [paddingPairs, if_pos hgap]
      | j + 1 =>
        simp only [List.get?] at ha hb
        have htail := ih j a b ha hb hgap
        simp only [paddingPairs]
        intro hcon
        exact htail (List.append_eq_nil.mp hcon).2

theorem lineOrdered_rel (l : List Token) :
    lineOrdered l = true → ∀ i : Nat, ∀ a b : Token,
      l.get? i = some a → l.get? (i + 1) = some b → a.endLine ≤ b.startLine := by
  induction l with
  | nil => intro _ i a b ha; simp at ha
  | cons x l' ih =>
    intro hord i a b ha hb
    cases l' with
    | nil =>
      have : ([] : List Token).get? i = some b := by simp at hb
      simp at this
    | cons y rest =>
      simp only [lineOrdered, Bool.and_eq_true, decide_eq_true_eq] at hord
      match i with
      | 0 =>
        simp only [List.get?] at ha hb
        cases ha; cases hb
        exact hord.1
      | j + 1 =>
        simp only [List.get?] at ha hb
        exact ih hord.2 j a b ha hb

theorem shiftTokensFrom_get? (l : List Token) :
    ∀ cut k i : Nat,
      (shiftTokensFrom cut k l).get? i =
        if i < cut then l.get? i else (l.get? i).map (shiftToken k) := by
  induction l with
  | nil => intro cut k i; simp [shiftTokensFrom]
  | cons t rest ih =>
    intro cut k i
    match cut with
    | 0 =>
      simp only [shiftTokensFrom]
      match i with
      | 0 => simp
      | j + 1 => simpa using ih 0 k j
    | c + 1 =>
      simp only [shiftTokensFrom]
      match i with
      | 0 => simp
      | j + 1 =>
        have := ih c k j
        simp only [List.get?, this]
        by_cases hj : j < c
        · simp [hj, Nat.succ_lt_succ hj]
        · have : ¬ j + 1 < c + 1 := by omega
          simp [hj, this]

theorem betweenChain_get? (sc : SourceCode) (p n : SNode) (m : Nat)
    (hm : m < n.firstIdx + 1 - p.lastIdx) :
    (betweenChain sc p n).get? m = sc.tokens.get? (p.lastIdx + m) := by
  simp only [betweenChain, List.get?_eq_getElem?]
  rw [List.getElem?_take_of_lt hm, List.getElem?_drop]

theorem betweenTokens_get? (sc : SourceCode) (p n : SNode) (m : Nat)
    (hm : m < n.firstIdx - (p.lastIdx + 1)) :
    (betweenTokens sc p n).get? m = sc.tokens.get? (p.lastIdx + 1 + m) := by
  simp only [betweenTokens, List.get?_eq_getElem?]
  rw [List.getElem?_take_of_lt hm, List.getElem?_drop]

theorem betweenTokens_length (sc : SourceCode) (p n : SNode)
    (h1 : p.lastIdx < n.firstIdx) (h2 : n.firstIdx < sc.tokens.length) :
    (betweenTokens sc p n).length = n.firstIdx - p.lastIdx - 1 := by
  simp only [betweenTokens, List.length_take, List.length_drop]
  omega

theorem chainRef_get? (sc : SourceCode) (p n : SNode) (lastTok : Token)
    (hlast : getActualLastToken sc p = some lastTok)
    (h1 : p.lastIdx < n.firstIdx) (h2 : n.firstIdx < sc.tokens.length) :
    ∀ k ≤ (betweenTokens sc p n).length,
      sc.tokens.get? (p.lastIdx + k) =
        some ((lastTok :: betweenTokens sc p n).getD k dummyToken) := by
  intro k hk
  match k with
  | 0 =>
    simpa [getActualLastToken] using hlast
  | m + 1 =>
    have hm : m < (betweenTokens sc p n).length := by omega
    have hlen := betweenTokens_length sc p n h1 h2
    have hget := betweenTokens_get? sc p n m (by omega)
    have hsome := List.get?_eq_get hm
    have hidx : p.lastIdx + (m + 1) = p.lastIdx + 1 + m := by omega
    rw [hidx, ← hget, hsome]
    simp [List.getD_eq_getElem?_getD, ← List.get?_eq_getElem?, hsome]

/-- The line the insertion anchor starts on: the anchor token's start line,
or `nextNode`'s start line for the `|| nextNode` fallback. -/
def anchorLine (anchor : Option Token) (nextNode : SNode) : Nat :=
  match anchor with
  | some tok => tok.startLine
  | none => nextNode.startLine

/-- C2: for every violation fix computed for a pair, starting from
`prevNode`'s actual last token every token or comment on the same line as
the current reference token is skipped and becomes the new reference
token; the first token or comment not on that line is the anchor, and when
no token between the nodes remains unskipped the anchor falls back to
`nextNode` itself; the inserted text goes immediately after the final
reference token (so a same-line trailing comment stays on `prevNode`'s
line and the blank line is inserted after it) and equals a double newline
exactly when the anchor is on the same line as that reference token,
otherwise a single newline. -/
theorem c2_fix_anchor_characterization (sc : SourceCode) (p n : SNode)
    (lastTok : Token) (k : Nat) (ref : Token) (anchor : Option Token)
    (hlast : getActualLastToken sc p = some lastTok)
    (hscan : scanSkip lastTok (betweenTokens sc p n) = (k, ref, anchor)) :
    computeFix sc p n =
      some ⟨p.lastIdx + k,
        if ref.endLine == anchorLine anchor n then "\n\n" else "\n"⟩ ∧
    k ≤ (betweenTokens sc p n).length ∧
    ref = (lastTok :: betweenTokens sc p n).getD k dummyToken ∧
    (∀ i < k,
      areTokensOnSameLine
        ((lastTok :: betweenTokens sc p n).getD i dummyToken)
        ((lastTok :: betweenTokens sc p n).getD (i + 1) dummyToken) = true) ∧
    anchor = (betweenTokens sc p n).get? k ∧
    (∀ tok, anchor = some tok → areTokensOnSameLine ref tok = false) ∧
    (anchor = none → k = (betweenTokens sc p n).length) := by
  have hk : k = (scanSkip lastTok (betweenTokens sc p n)).1 := by rw [hscan]
  have href : ref = (scanSkip lastTok (betweenTokens sc p n)).2.1 := by rw [hscan]
  have hanch : anchor = (scanSkip lastTok (betweenTokens sc p n)).2.2 := by
    rw [hscan]
  refine ⟨?_, ?_, ?_, ?_, ?_, ?_, ?_⟩
  · have hcf : computeFix sc p n =
        some ⟨p.lastIdx + (scanSkip lastTok (betweenTokens sc p n)).1,
          if (scanSkip lastTok (betweenTokens sc p n)).2.1.endLine ==
              anchorLine (scanSkip lastTok (betweenTokens sc p n)).2.2 n
          then "\n\n" else "\n"⟩ := by
      simp only [computeFix, hlast, anchorLine]
    rw [hscan] at hcf
    simpa using hcf
  · rw [hk]; exact scanSkip_count_le _ _
  · rw [href, hk]; exact scanSkip_ref _ _
  · intro i hi
    rw [hk] at hi
    exact scanSkip_sameLine _ _ i hi
  · rw [hanch, hk]; exact scanSkip_anchor_eq _ _
  · intro tok htok
    rw [hanch] at htok
    rw [href]
    exact scanSkip_anchor_notSame _ _ tok htok
  · intro hnone
    rw [hanch] at hnone
    rw [hk]
    exact scanSkip_anchor_none _ _ hnone

theorem paddingAlwaysTester_of_empty (p n : SNode) (sc : SourceCode)
    (h : getPaddingLineSequences p n sc = []) :
    paddingAlwaysTester p n sc =
      [⟨n, "Expected blank line before this statement.", computeFix sc p n⟩] := by
  simp [paddingAlwaysTester, h]

theorem paddingAlwaysTester_of_padded (p n : SNode) (sc : SourceCode)
    (h : getPaddingLineSequences p n sc ≠ []) :
    paddingAlwaysTester p n sc = [] := by
  simp [paddingAlwaysTester, List.length_pos.mpr h]

theorem computeFix_isSome (sc : SourceCode) (p n : SNode)
    (hp : p.lastIdx < sc.tokens.length) :
    ∃ fix, computeFix sc p n = some fix := by
  have hlast : getActualLastToken sc p = some (sc.tokens.get ⟨p.lastIdx, hp⟩) := by
    simp [getActualLastToken, List.get?_eq_get hp]
  simp [computeFix, hlast]

/-- C1: for every adjacent pair whose resolved padding policy is `Always`,
when no blank-line sequence exists between the nodes exactly one violation
is reported, anchored at the next node, with the message "Expected blank
line before this statement." and carrying a fix; when a blank-line
sequence already exists, zero violations are reported for the pair. -/
theorem c1_always_pair_reporting (configs : List Config) (p n : SNode)
    (sc : SourceCode)
    (hres : resolvePolicy configs p n sc = some PaddingType.Always)
    (hp : p.lastIdx < sc.tokens.length) :
    (getPaddingLineSequences p n sc = [] →
      ∃ fix, testPadding configs p n sc =
        some [⟨n, "Expected blank line before this statement.", some fix⟩]) ∧
    (getPaddingLineSequences p n sc ≠ [] →
      testPadding configs p n sc = some []) := by
  have htp : testPadding configs p n sc = some (paddingAlwaysTester p n sc) := by
    simp [testPadding, hres, paddingTesters]
  constructor
  · intro hempty
    obtain ⟨fix, hfix⟩ := computeFix_isSome sc p n hp
    refine ⟨fix, ?_⟩
    rw [htp, paddingAlwaysTester_of_empty p n sc hempty, hfix]
  · intro hpadded
    rw [htp, paddingAlwaysTester_of_padded p n sc hpadded]

/-- Concrete scenario for C1: two bare `test(...)` statements on adjacent
lines under the rule "always pad before a test token". -/
def scW1 : SourceCode :=
  ⟨[⟨"Identifier", "test", 1, 1⟩, ⟨"Punctuator", ";", 1, 1⟩,
    ⟨"Identifier", "test", 2, 2⟩]⟩

def pW1 : SNode := .plain "ExpressionStatement" 1 0 1

def nW1 : SNode := .plain "ExpressionStatement" 2 2 2

def cfgW1 : List Config :=
  [⟨.Always, .single .Any, .single .TestToken⟩]

theorem c1_always_pair_reporting_witness :
    ∃ fix, testPadding cfgW1 pW1 nW1 scW1 =
      some [⟨nW1, "Expected blank line before this statement.", some fix⟩] :=
  (c1_always_pair_reporting cfgW1 pW1 nW1 scW1 (by decide) (by decide)).1
    (by decide)

theorem c2_fix_anchor_characterization_witness :
    computeFix
      ⟨[⟨"Identifier", "foo", 1, 1⟩, ⟨"Punctuator", ";", 1, 1⟩,
        ⟨"Line", "// note", 1, 1⟩, ⟨"Identifier", "describe", 2, 2⟩]⟩
      (.plain "ExpressionStatement" 1 0 1)
      (.plain "ExpressionStatement" 2 3 3) = some ⟨2, "\n"⟩ := by
  have h := c2_fix_anchor_characterization
    ⟨[⟨"Identifier", "foo", 1, 1⟩, ⟨"Punctuator", ";", 1, 1⟩,
      ⟨"Line", "// note", 1, 1⟩, ⟨"Identifier", "describe", 2, 2⟩]⟩
    (.plain "ExpressionStatement" 1 0 1)
    (.plain "ExpressionStatement" 2 3 3)
    ⟨"Punctuator", ";", 1, 1⟩ 1 ⟨"Line", "// note", 1, 1⟩ none
    (by decide) (by decide)
  rw [h.1]
  decide

theorem newlineCount_single : newlineCount "\n" = 1 := by decide

theorem newlineCount_double : newlineCount "\n\n" = 2 := by decide

theorem applyFix_tokens (sc : SourceCode) (fix : RuleFix) :
    (applyFix sc fix).tokens =
      shiftTokensFrom (fix.afterIdx + 1) (newlineCount fix.text) sc.tokens := rfl

/-- C8: for every adjacent pair for which a violation with a fix was
reported, applying that fix to the source and re-running the check yields
zero violations for that pair — one fix application suffices. -/
theorem c8_fix_removes_violation (sc : SourceCode) (p n : SNode)
    (rep : Report) (fix : RuleFix)
    (hwf : pairWf sc p n = true)
    (hrep : paddingAlwaysTester p n sc = [rep])
    (hfix : rep.fix = some fix) :
    paddingAlwaysTester p n (applyFix sc fix) = [] := by
  simp only [pairWf, Bool.and_eq_true, decide_eq_true_eq] at hwf
  obtain ⟨⟨⟨hLF, hF⟩, hstart0⟩, horder⟩ := hwf
  have hntg : sc.tokens.get? n.firstIdx = some (sc.tokens.get ⟨n.firstIdx, hF⟩) :=
    List.get?_eq_get hF
  rw [hntg] at hstart0
  have hstart : n.startLine = (sc.tokens.get ⟨n.firstIdx, hF⟩).startLine := by
    simpa using hstart0
  by_cases hpl : getPaddingLineSequences p n sc = []
  case neg =>
    rw [paddingAlwaysTester_of_padded p n sc hpl] at hrep
    exact absurd hrep (by simp)
  case pos =>
  rw [paddingAlwaysTester_of_empty p n sc hpl] at hrep
  have hrep' : (⟨n, "Expected blank line before this statement.",
      computeFix sc p n⟩ : Report) = rep := by
    simpa using hrep
  have hcfix : computeFix sc p n = some fix := by
    rw [← hrep'] at hfix
    simpa using hfix
  have hL : p.lastIdx < sc.tokens.length := by omega
  have hlastEq : getActualLastToken sc p =
      some (sc.tokens.get ⟨p.lastIdx, hL⟩) := by
    simp [getActualLastToken, List.get?_eq_get hL]
  rcases hscan : scanSkip (sc.tokens.get ⟨p.lastIdx, hL⟩) (betweenTokens sc p n)
    with ⟨k, ref, anchor⟩
  have hcf2 : computeFix sc p n =
      some ⟨p.lastIdx + k,
        if ref.endLine == anchorLine anchor n then "\n\n" else "\n"⟩ := by
    have h0 : computeFix sc p n =
        some ⟨p.lastIdx + (scanSkip (sc.tokens.get ⟨p.lastIdx, hL⟩)
            (betweenTokens sc p n)).1,
          if (scanSkip (sc.tokens.get ⟨p.lastIdx, hL⟩)
              (betweenTokens sc p n)).2.1.endLine ==
            anchorLine (scanSkip (sc.tokens.get ⟨p.lastIdx, hL⟩)
              (betweenTokens sc p n)).2.2 n then "\n\n" else "\n"⟩ := by
      simp only [computeFix, hlastEq, anchorLine]
    rw [hscan] at h0
    simpa using h0
  have hfixval : fix =
      ⟨p.lastIdx + k,
        if ref.endLine == anchorLine anchor n then "\n\n" else "\n"⟩ := by
    rw [hcfix] at hcf2
    exact Option.some.inj hcf2
  subst hfixval
  have hk_le : k ≤ (betweenTokens sc p n).length := by
    have h1 := scanSkip_count_le (betweenTokens sc p n)
      (sc.tokens.get ⟨p.lastIdx, hL⟩)
    rw [hscan] at h1
    simpa using h1
  have hlen : (betweenTokens sc p n).length = n.firstIdx - p.lastIdx - 1 :=
    betweenTokens_length sc p n hLF hF
  have href : ref = ((sc.tokens.get ⟨p.lastIdx, hL⟩) ::
      betweenTokens sc p n).getD k dummyToken := by
    have h1 := scanSkip_ref (betweenTokens sc p n)
      (sc.tokens.get ⟨p.lastIdx, hL⟩)
    rw [hscan] at h1
    simpa using h1
  have hanch_eq : anchor = (betweenTokens sc p n).get? k := by
    have h1 := scanSkip_anchor_eq (betweenTokens sc p n)
      (sc.tokens.get ⟨p.lastIdx, hL⟩)
    rw [hscan] at h1
    simpa using h1
  have hchaink : (betweenChain sc p n).get? k = some ref := by
    rw [betweenChain_get? sc p n k (by omega), href]
    exact chainRef_get? sc p n _ hlastEq hLF hF k hk_le
  cases anchor with
  | some anchTok =>
    have hbet : (betweenTokens sc p n).get? k = some anchTok := hanch_eq.symm
    have hklt : k < (betweenTokens sc p n).length := by
      by_contra hcon
      rw [List.get?_eq_none.mpr (by omega)] at hbet
      exact Option.noConfusion hbet
    have htokg : sc.tokens.get? (p.lastIdx + 1 + k) = some anchTok := by
      rw [← betweenTokens_get? sc p n k (by omega)]
      exact hbet
    have hnots : areTokensOnSameLine ref anchTok = false := by
      have h1 := scanSkip_anchor_notSame (betweenTokens sc p n)
        (sc.tokens.get ⟨p.lastIdx, hL⟩) anchTok
      rw [hscan] at h1
      simpa using h1 rfl
    have hne : ref.endLine ≠ anchTok.startLine := by
      simpa [areTokensOnSameLine] using hnots
    have hbeqf : (ref.endLine == anchTok.startLine) = false := by
      rw [beq_eq_false_iff_ne]
      exact hne
    have hchaink1 : (betweenChain sc p n).get? (k + 1) = some anchTok := by
      rw [betweenChain_get? sc p n (k + 1) (by omega),
        show p.lastIdx + (k + 1) = p.lastIdx + 1 + k from by omega]
      exact htokg
    have hord_le : ref.endLine ≤ anchTok.startLine :=
      lineOrdered_rel _ horder k ref anchTok hchaink hchaink1
    simp only [anchorLine, hbeqf, Bool.false_eq_true, if_false]
    apply paddingAlwaysTester_of_padded
    simp only [getPaddingLineSequences]
    refine paddingPairs_ne_nil _ k ref (shiftToken 1 anchTok) ?_ ?_ ?_
    · rw [betweenChain_get? _ p n k (by omega), applyFix_tokens,
        shiftTokensFrom_get?]
      simp only [newlineCount_single]
      rw [if_pos (by omega : p.lastIdx + k < p.lastIdx + k + 1)]
      rw [href]
      exact chainRef_get? sc p n _ hlastEq hLF hF k hk_le
    · rw [betweenChain_get? _ p n (k + 1) (by omega), applyFix_tokens,
        shiftTokensFrom_get?]
      simp only [newlineCount_single]
      rw [if_neg (by omega : ¬ p.lastIdx + (k + 1) < p.lastIdx + k + 1)]
      rw [show p.lastIdx + (k + 1) = p.lastIdx + 1 + k from by omega, htokg]
      rfl
    · simp only [shiftToken]
      omega
  | none =>
    have hkl : k = (betweenTokens sc p n).length := by
      have h1 := scanSkip_anchor_none (betweenTokens sc p n)
        (sc.tokens.get ⟨p.lastIdx, hL⟩) (by rw [hscan])
      rw [hscan] at h1
      simpa using h1
    have hidx : p.lastIdx + (k + 1) = n.firstIdx := by omega
    have hchaink1 : (betweenChain sc p n).get? (k + 1) =
        some (sc.tokens.get ⟨n.firstIdx, hF⟩) := by
      rw [betweenChain_get? sc p n (k + 1) (by omega), hidx]
      exact hntg
    have hord_le : ref.endLine ≤ (sc.tokens.get ⟨n.firstIdx, hF⟩).startLine :=
      lineOrdered_rel _ horder k ref _ hchaink hchaink1
    by_cases hbeq : (ref.endLine == n.startLine) = true
    · have heq : ref.endLine = n.startLine := by simpa using hbeq
      simp only [anchorLine, hbeq, if_true]
      apply paddingAlwaysTester_of_padded
      simp only [getPaddingLineSequences]
      refine paddingPairs_ne_nil _ k ref
        (shiftToken 2 (sc.tokens.get ⟨n.firstIdx, hF⟩)) ?_ ?_ ?_
      · rw [betweenChain_get? _ p n k (by omega), applyFix_tokens,
          shiftTokensFrom_get?]
        simp only [newlineCount_double]
        rw [if_pos (by omega : p.lastIdx + k < p.lastIdx + k + 1)]
        rw [href]
        exact chainRef_get? sc p n _ hlastEq hLF hF k hk_le
      · rw [betweenChain_get? _ p n (k + 1) (by omega), applyFix_tokens,
          shiftTokensFrom_get?]
        simp only [newlineCount_double]
        rw [if_neg (by omega : ¬ p.lastIdx + (k + 1) < p.lastIdx + k + 1)]
        rw [hidx, hntg]
        rfl
      · simp only [shiftToken]
        omega
    · rw [Bool.not_eq_true] at hbeq
      have hne : ref.endLine ≠ n.startLine := by
        simpa using (beq_eq_false_iff_ne).mp hbeq
      simp only [anchorLine, hbeq, Bool.false_eq_true, if_false]
      apply paddingAlwaysTester_of_padded
      simp only [getPaddingLineSequences]
      refine paddingPairs_ne_nil _ k ref
        (shiftToken 1 (sc.tokens.get ⟨n.firstIdx, hF⟩)) ?_ ?_ ?_
      · rw [betweenChain_get? _ p n k (by omega), applyFix_tokens,
          shiftTokensFrom_get?]
        simp only [newlineCount_single]
        rw [if_pos (by omega : p.lastIdx + k < p.lastIdx + k + 1)]
        rw [href]
        exact chainRef_get? sc p n _ hlastEq hLF hF k hk_le
      · rw [betweenChain_get? _ p n (k + 1) (by omega), applyFix_tokens,
          shiftTokensFrom_get?]
        simp only [newlineCount_single]
        rw [if_neg (by omega : ¬ p.lastIdx + (k + 1) < p.lastIdx + k + 1)]
        rw [hidx, hntg]
        rfl
      · simp only [shiftToken]
        omega

/-- Concrete scenario for C8 and C2: `foo(); // note` followed on the next
line by a `describe(...)` statement. -/
def scW8 : SourceCode :=
  ⟨[⟨"Identifier", "foo", 1, 1⟩, ⟨"Punctuator", ";", 1, 1⟩,
    ⟨"Line", "// note", 1, 1⟩, ⟨"Identifier", "describe", 2, 2⟩]⟩

def pW8 : SNode := .plain "ExpressionStatement" 1 0 1

def nW8 : SNode := .plain "ExpressionStatement" 2 3 3

def fixW8 : RuleFix := ⟨2, "\n"⟩

theorem c8_fix_removes_violation_witness :
    paddingAlwaysTester pW8 nW8 (applyFix scW8 fixW8) = [] :=
  c8_fix_removes_violation scW8 pW8 nW8
    ⟨nW8, "Expected blank line before this statement.", some fixW8⟩ fixW8
    (by decide) (by decide) (by decide)

theorem resolvePolicyRev_all_false (p n : SNode) (sc : SourceCode) :
    ∀ l : List Config, (∀ c ∈ l, configMatches c p n sc = some false) →
      resolvePolicyRev p n sc l = some PaddingType.Any := by
  intro l
  induction l with
  | nil => intro _; rfl
  | cons c rest ih =>
    intro h
    have hc := h c (by simp)
    simp only [resolvePolicyRev, hc]
    exact ih fun c' hc' => h c' (by simp [hc'])

theorem resolvePolicyRev_skip (p n : SNode) (sc : SourceCode) :
    ∀ l : List Config, (∀ c ∈ l, configMatches c p n sc = some false) →
      ∀ rest : List Config,
        resolvePolicyRev p n sc (l ++ rest) = resolvePolicyRev p n sc rest := by
  intro l
  induction l with
  | nil => intro _ rest; rfl
  | cons c lrest ih =>
    intro h rest
    have hc := h c (by simp)
    simp only [List.cons_append, resolvePolicyRev, hc]
    exact ih (fun c' hc' => h c' (by simp [hc'])) rest

/-- C9: for every pair, when no rule of the table matches, the resolved
policy is the default `Any`, and with policy `Any` no violation is
reported and no fix is produced, regardless of the whitespace between the
nodes. -/
theorem c9_no_match_default_any (configs : List Config) (p n : SNode)
    (sc : SourceCode)
    (h : ∀ c ∈ configs, configMatches c p n sc = some false) :
    resolvePolicy configs p n sc = some PaddingType.Any ∧
    testPadding configs p n sc = some [] := by
  have hres : resolvePolicy configs p n sc = some PaddingType.Any := by
    apply resolvePolicyRev_all_false
    intro c hc
    exact h c (List.mem_reverse.mp hc)
  exact ⟨hres, by simp [testPadding, hres, paddingTesters]⟩

theorem c9_no_match_default_any_witness :
    resolvePolicy [⟨.Always, .single .DescribeToken, .single .Any⟩]
        pW1 nW1 scW1 = some PaddingType.Any ∧
      testPadding [⟨.Always, .single .DescribeToken, .single .Any⟩]
        pW1 nW1 scW1 = some [] :=
  c9_no_match_default_any _ pW1 nW1 scW1 (by decide)

/-- C3: rule resolution scans the table from its last entry to its first
and applies the policy of the first rule encountered whose categories
match the pair (last-declared-rule-wins); in particular, for the table
holding an `Always` rule and then an `Any` rule for the same shape, a
matching pair resolves to `Any`. -/
theorem c3_last_match_wins :
    (∀ (l1 : List Config) (c : Config) (l2 : List Config) (p n : SNode)
        (sc : SourceCode),
      configMatches c p n sc = some true →
      (∀ c' ∈ l2, configMatches c' p n sc = some false) →
      resolvePolicy (l1 ++ c :: l2) p n sc = some c.paddingType) ∧
    (∀ (x : StatementTypes) (p n : SNode) (sc : SourceCode),
      nodeMatchesType n x sc = some true →
      resolvePolicy
        [⟨PaddingType.Always, .single .Any, x⟩,
         ⟨PaddingType.Any, .single .Any, x⟩] p n sc =
        some PaddingType.Any) := by
  constructor
  · intro l1 c l2 p n sc hc hl2
    unfold resolvePolicy
    rw [List.reverse_append, List.reverse_cons, List.append_assoc]
    rw [resolvePolicyRev_skip p n sc l2.reverse
      (fun c' hc' => hl2 c' (List.mem_reverse.mp hc')) ([c] ++ l1.reverse)]
    simp only [List.singleton_append, resolvePolicyRev, hc]
  · intro x p n sc hx
    have hprev : nodeMatchesType p (.single .Any) sc = some true := rfl
    have hm : configMatches ⟨PaddingType.Any, .single .Any, x⟩ p n sc =
        some true := by
      simp only [configMatches, hprev, hx]
    simp [resolvePolicy, resolvePolicyRev, hm]

theorem c3_last_match_wins_witness :
    resolvePolicy
      [⟨PaddingType.Always, .single .Any, .single .TestToken⟩,
       ⟨PaddingType.Any, .single .Any, .single .TestToken⟩] pW1 nW1 scW1 =
      some PaddingType.Any :=
  c3_last_match_wins.2 (.single .TestToken) pW1 nW1 scW1 (by decide)

theorem unwrapLabels_idem (node : SNode) :
    unwrapLabels (unwrapLabels node) = unwrapLabels node := by
  induction node with
  | plain k s f l => rfl
  | labeled s f body ih => simpa [unwrapLabels] using ih

theorem createTokenTester_eq_true_iff (name : String) (node : SNode)
    (sc : SourceCode) :
    createTokenTester name node sc = some true ↔
      (node.kind = "ExpressionStatement" ∧
        ∃ tok, getFirstToken sc node = some tok ∧
          tok.ttype = "Identifier" ∧ tok.value = name) := by
  rcases hg : getFirstToken sc node with _ | tok <;>
    by_cases hk : node.kind = "ExpressionStatement" <;>
      simp [createTokenTester, hg, hk]

theorem statementTesters_ne_any (t : StatementType) (ht : t ≠ .Any) :
    statementTesters t = createTokenTester (typeTokenName t) := by
  cases t <;> first
    | exact absurd rfl ht
    | rfl

theorem nodeMatchesTypeList_eq_true_iff (inner : SNode) (sc : SourceCode) :
    ∀ ts : List StatementType,
      (∀ t ∈ ts, (statementTesters t (unwrapLabels inner) sc).isSome) →
      (nodeMatchesTypeList inner sc ts = some true ↔
        ∃ t ∈ ts, statementTesters t (unwrapLabels inner) sc = some true) := by
  intro ts
  induction ts with
  | nil => intro _; simp [nodeMatchesTypeList]
  | cons t rest ih =>
    intro hdef
    have hts := hdef t (by simp)
    rcases hsome : statementTesters t (unwrapLabels inner) sc with _ | b
    · rw [hsome] at hts; simp at hts
    · cases b with
      | false =>
        simp only [nodeMatchesTypeList, hsome]
        rw [ih fun t' ht' => hdef t' (by simp [ht'])]
        constructor
        · rintro ⟨t', ht', h⟩
          exact ⟨t', by simp [ht'], h⟩
        · rintro ⟨t', ht', h⟩
          rcases (by simpa using ht' : t' = t ∨ t' ∈ rest) with rfl | hmem
          · rw [hsome] at h; simp at h
          · exact ⟨t', hmem, h⟩
      | true =>
        simp only [nodeMatchesTypeList, hsome]
        constructor
        · intro _; exact ⟨t, by simp, hsome⟩
        · intro _; trivial

/-- C6: the wildcard category matches any node unconditionally; a named
category matches exactly when, after repeatedly unwrapping labeling
wrappers, the node is an expression statement whose first token is an
identifier with the category's associated name; a composite (array)
category matches exactly when at least one member matches the unwrapped
node (member tests are run against the node unwrapped once, provided each
member test is defined). -/
theorem c6_classifier_matching (node : SNode) (sc : SourceCode) :
    nodeMatchesType node (.single .Any) sc = some true ∧
    (∀ t : StatementType, t ≠ .Any →
      (nodeMatchesType node (.single t) sc = some true ↔
        ((unwrapLabels node).kind = "ExpressionStatement" ∧
          ∃ tok, getFirstToken sc (unwrapLabels node) = some tok ∧
            tok.ttype = "Identifier" ∧ tok.value = typeTokenName t))) ∧
    (∀ ts : List StatementType,
      (∀ t ∈ ts, (nodeMatchesType (unwrapLabels node) (.single t) sc).isSome) →
      (nodeMatchesType node (.listOf ts) sc = some true ↔
        ∃ t ∈ ts,
          nodeMatchesType (unwrapLabels node) (.single t) sc = some true)) := by
  refine ⟨rfl, ?_, ?_⟩
  · intro t ht
    have hsame : nodeMatchesType node (.single t) sc =
        createTokenTester (typeTokenName t) (unwrapLabels node) sc := by
      show statementTesters t (unwrapLabels node) sc = _
      rw [statementTesters_ne_any t ht]
    rw [hsame]
    exact createTokenTester_eq_true_iff _ _ _
  · intro ts hdef
    have hdef' : ∀ t ∈ ts,
        (statementTesters t (unwrapLabels (unwrapLabels node)) sc).isSome :=
      hdef
    have hiff := nodeMatchesTypeList_eq_true_iff (unwrapLabels node) sc ts hdef'
    exact hiff

theorem c6_classifier_matching_witness :
    nodeMatchesType (SNode.labeled 1 0 (.plain "ExpressionStatement" 1 1 1))
      (.single .DescribeToken) ⟨[⟨"Punctuator", ":", 1, 1⟩,
        ⟨"Identifier", "describe", 1, 1⟩]⟩ = some true :=
  ((c6_classifier_matching
      (SNode.labeled 1 0 (.plain "ExpressionStatement" 1 1 1))
      ⟨[⟨"Punctuator", ":", 1, 1⟩, ⟨"Identifier", "describe", 1, 1⟩]⟩).2.1
    .DescribeToken (by decide)).mpr
    ⟨by decide, ⟨"Identifier", "describe", 1, 1⟩, by decide, by decide, by decide⟩

/-- C10 (refuting evaluation): a node that is not an expression statement
and has no first token still yields `false` — the conjunction
short-circuits on the `node.type` check before dereferencing the token, so
the missing token does not make the test undefined. -/
theorem c10_no_token_still_false_counterexample :
    getFirstToken ⟨[]⟩ (.plain "VariableDeclaration" 1 0 0) = none ∧
    createTokenTester "describe" (.plain "VariableDeclaration" 1 0 0) ⟨[]⟩ =
      some false := by
  decide

/-- C10 (amended): the tester retrieves the node's first token before the
expression-statement check, but the JavaScript conjunction short-circuits:
whenever the node has a first token the tester returns a boolean, and when
the node has no first token the test is undefined only for an expression
statement — for any other node kind it returns `false`. -/
theorem c10_token_tester_totality (name : String) (node : SNode)
    (sc : SourceCode) :
    ((getFirstToken sc node).isSome → (createTokenTester name node sc).isSome) ∧
    (getFirstToken sc node = none →
      createTokenTester name node sc =
        (if node.kind == "ExpressionStatement" then none else some false)) := by
  constructor
  · intro h
    rcases hg : getFirstToken sc node with _ | tok
    · rw [hg] at h; simp at h
    · by_cases hk : (node.kind == "ExpressionStatement") = true <;>
        simp [createTokenTester, hg, hk]
  · intro hnone
    by_cases hk : (node.kind == "ExpressionStatement") = true <;>
      simp [createTokenTester, hnone, hk]

theorem c10_token_tester_totality_witness :
    (createTokenTester "describe" (.plain "ExpressionStatement" 1 0 0)
      ⟨[⟨"Identifier", "describe", 1, 1⟩]⟩).isSome :=
  (c10_token_tester_totality "describe" (.plain "ExpressionStatement" 1 0 0)
    ⟨[⟨"Identifier", "describe", 1, 1⟩]⟩).1 (by decide)

/-- C5 (refuting evaluation): visiting a statement whose parent fails the
valid-parent check leaves the scope's previous statement unchanged — it is
not overwritten with the visited node, because `verifyNode` returns before
the assignment. -/
theorem c5_invalid_parent_counterexample :
    verifyNode [] ⟨[]⟩ (.plain "ExpressionStatement" 2 2 2) "IfStatement"
        ⟨[some (.plain "ExpressionStatement" 1 0 1)], []⟩ =
      some ⟨[some (.plain "ExpressionStatement" 1 0 1)], []⟩ ∧
    scopeGetPrev [some (.plain "ExpressionStatement" 1 0 1)] ≠
      some (.plain "ExpressionStatement" 2 2 2) := by
  decide

theorem scopeGetPrev_setPrev (node : SNode) (s : List (Option SNode))
    (h : s ≠ []) : scopeGetPrev (scopeSetPrev node s) = some node := by
  cases s with
  | nil => exact absurd rfl h
  | cons a rest => rfl

/-- C5 (amended): after visiting a statement-level node whose parent passes
the valid-parent check, the current scope's previous statement equals that
node; when the check fails, `verifyNode` returns early and the state —
including the previous statement — is unchanged. -/
theorem c5_prev_update_on_valid (configs : List Config) (sc : SourceCode)
    (node : SNode) (parentKind : String) (st st' : RuleState)
    (hne : st.scopes ≠ [])
    (hrun : verifyNode configs sc node parentKind st = some st') :
    (isValidParent parentKind = true → scopeGetPrev st'.scopes = some node) ∧
    (isValidParent parentKind = false → st' = st) := by
  constructor
  · intro hv
    simp only [verifyNode, hv] at hrun
    rw [if_neg (by simp)] at hrun
    split at hrun
    · split at hrun
      · cases hrun
      · cases hrun
        exact scopeGetPrev_setPrev node st.scopes hne
    · cases hrun
      exact scopeGetPrev_setPrev node st.scopes hne
  · intro hv
    simp only [verifyNode, hv, if_pos] at hrun
    cases hrun
    rfl

theorem c5_prev_update_on_valid_witness :
    scopeGetPrev (⟨[some nW1], []⟩ : RuleState).scopes = some nW1 :=
  (c5_prev_update_on_valid [] scW1 nW1 "Program" ⟨[some pW1], []⟩
    ⟨[some nW1], []⟩ (by decide) (by decide)).1 (by decide)

/-- C4 (refuting evaluation): the listener registered for `'Program:exit'`
is `scopeInfo.enter`, not `exit` (padding.ts line 331), so a complete
traversal of the empty program — the host fires `Program` on entry and
`Program:exit` on exit — leaves the scope stack at depth 2 instead of
popping back to depth 0: scope pushes and pops are not balanced. -/
theorem c4_program_exit_pushes_scope :
    runEvents [] ⟨[]⟩ [Event.program, Event.programExit] initialRuleState =
      some ⟨[none, none], []⟩ ∧
    handleEvent [] ⟨[]⟩ initialRuleState Event.programExit =
      some ⟨[none], []⟩ := by
  decide

theorem runScopeOps_frame :
    ∀ ops : List ScopeOp, ∀ d : Nat, innerBalanced ops d = true →
      ∀ front s : List (Option SNode), front.length = d + 1 →
        ∃ front' : List (Option SNode),
          runScopeOps ops (front ++ s) = front' ++ s ∧
            front'.length = 1 := by
  intro ops
  induction ops with
  | nil =>
    intro d h front s hlen
    simp only [innerBalanced, beq_iff_eq] at h
    subst h
    exact ⟨front, rfl, hlen⟩
  | cons op rest ih =>
    intro d h front s hlen
    cases op with
    | enter =>
      simp only [innerBalanced] at h
      have hstep : runScopeOps (ScopeOp.enter :: rest) (front ++ s) =
          runScopeOps rest ((none :: front) ++ s) := by
        simp [runScopeOps, applyScopeOp, scopeEnter]
      rw [hstep]
      exact ih (d + 1) h (none :: front) s (by simp [hlen])
    | exit =>
      simp only [innerBalanced, Bool.and_eq_true, bne_iff_ne] at h
      obtain ⟨hd0, hrest⟩ := h
      cases front with
      | nil => simp at hlen
      | cons f0 front1 =>
        have hstep : runScopeOps (ScopeOp.exit :: rest) ((f0 :: front1) ++ s) =
            runScopeOps rest (front1 ++ s) := by
          simp [runScopeOps, applyScopeOp, scopeExit]
        rw [hstep]
        have hlen1 : front1.length = (d - 1) + 1 := by
          simp at hlen
          omega
        exact ih (d - 1) hrest front1 s hlen1
    | setPrev nd =>
      simp only [innerBalanced] at h
      cases front with
      | nil => simp at hlen
      | cons f0 front1 =>
        have hstep : runScopeOps (ScopeOp.setPrev nd :: rest)
            ((f0 :: front1) ++ s) =
            runScopeOps rest ((some nd :: front1) ++ s) := by
          simp [runScopeOps, applyScopeOp, scopeSetPrev]
        rw [hstep]
        exact ih d h (some nd :: front1) s (by simpa using hlen)

/-- C7: scope isolation — after entering a nested scope, running any
well-bracketed sequence of scope tracker operations inside it, and exiting,
the scope stack is exactly what it was before the nested scope was entered;
in particular the parent scope's previous statement is unchanged, so the
first statement after a block is compared against the parent's own last
statement before the block. -/
theorem c7_scope_isolation (s : List (Option SNode)) (ops : List ScopeOp)
    (h : innerBalanced ops 0 = true) :
    runScopeOps (ScopeOp.enter :: (ops ++ [ScopeOp.exit])) s = s ∧
    scopeGetPrev (runScopeOps (ScopeOp.enter :: (ops ++ [ScopeOp.exit])) s) =
      scopeGetPrev s := by
  have h1 : runScopeOps (ScopeOp.enter :: (ops ++ [ScopeOp.exit])) s =
      runScopeOps [ScopeOp.exit] (runScopeOps ops ([none] ++ s)) := by
    simp [runScopeOps, List.foldl_append, applyScopeOp, scopeEnter]
  have hmain : runScopeOps (ScopeOp.enter :: (ops ++ [ScopeOp.exit])) s = s := by
    obtain ⟨front', hrun, hlen⟩ := runScopeOps_frame ops 0 h [none] s rfl
    rw [h1, hrun]
    rcases front' with _ | ⟨f0, rest'⟩
    · simp at hlen
    · have hnil : rest' = [] := by simpa using hlen
      subst hnil
      simp [runScopeOps, applyScopeOp, scopeExit]
  exact ⟨hmain, by rw [hmain]⟩

theorem c7_scope_isolation_witness :
    runScopeOps (ScopeOp.enter ::
      ([ScopeOp.setPrev nW1, ScopeOp.enter, ScopeOp.setPrev pW1,
        ScopeOp.exit] ++ [ScopeOp.exit])) [some pW1] = [some pW1] :=
  (c7_scope_isolation [some pW1]
    [.setPrev nW1, .enter, .setPrev pW1, .exit] (by decide)).1
